import Mathlib

/-!
# Verification of the tiny-llm admission-and-execution subsystem

Shallow embedding of `src/app/core/interenceQueue.py` (the bounded
inference queue, its single worker loop and the blocking-iterator to
async-stream bridge) and `src/app/core/modelManager.py` (the model
residency manager), together with proofs about the behaviour claimed in
the specification.

Conventions of the embedding:
* Python exceptions become values of the inductive type `PyExc`.
* A fallible Python call becomes a Lean function returning `Except PyExc _`.
* The asyncio event loop is modelled as an interleaving of atomic steps on
  an explicit state (`QueueState`, `QStep`); "atomic" pieces are the code
  regions between `await` points of the source.
* Machine-external facts (the filesystem, the native `Llama(...)` loader,
  the blocking token iterator produced by the model) are parameters of the
  definitions that use them.
-/

/-- Python exception values relevant to this subsystem.  `queueFull` is
`asyncio.QueueFull`, `valueError`/`fileNotFoundError`/`typeError`/
`indexError` are the corresponding builtins, `loadError` models the
dedicated wrapper exception class that the specification speaks about
(no such class exists in the source), and `other` stands for any other
exception raised by external code. -/
inductive PyExc where
  | queueFull (msg : String)
  | valueError (msg : String)
  | fileNotFoundError (msg : String)
  | typeError (msg : String)
  | indexError (msg : String)
  | loadError (cause : PyExc)
  | other (tag : String)
deriving DecidableEq, Repr

/-! ## Stream bridge: `sync_worker_logic` and `response_generator`
(`interenceQueue.py`, lines 41-89) -/

/-- One element of the `chunk["choices"]` list produced by the blocking
iterator; only its `"text"` field is read by the source. -/
structure StreamChoice where
  text : String
deriving DecidableEq, Repr

/-- One chunk yielded by the blocking iterator
(`chunk` in `for chunk in sync_iterator`). -/
structure StreamChunk where
  choices : List StreamChoice
deriving DecidableEq, Repr

/-- Behaviour of one run of the blocking producer iterator: the chunks it
yields in order, then either normal exhaustion (`failure = none`) or an
exception raised after the listed chunks (`failure = some e`). -/
structure ProducerRun where
  chunks : List StreamChunk
  failure : Option PyExc
deriving DecidableEq, Repr

/-- A value travelling through the per-request `stream_channel`
(an `asyncio.Queue`): a token string, an exception object used as an
error sentinel, or the `StopAsyncIteration` class used as the
end-of-stream sentinel. -/
inductive StreamMsg where
  | token (t : String)
  | exc (e : PyExc)
  | stopAsyncIteration
deriving DecidableEq, Repr

/-- The `for chunk in sync_iterator` loop body of `sync_worker_logic`:
each chunk has `chunk["choices"][0]["text"]` extracted and pushed as a
token; indexing an empty `choices` list raises `IndexError`, which the
surrounding `except` turns into an error sentinel; an iterator failure
after the last yielded chunk is likewise pushed as an error sentinel. -/
def pushLoop : List StreamChunk → Option PyExc → List StreamMsg
  | [], none => []
  | [], some e => [.exc e]
  | c :: rest, f =>
    match c.choices with
    | [] => [.exc (.indexError "list index out of range")]
    | ch :: _ => .token ch.text :: pushLoop rest f

/-- The complete contents pushed into `stream_channel` by one run of
`sync_worker_logic` (`interenceQueue.py` lines 55-73).  The input is the
outcome of `task_fn()`: either the run of the producer iterator, or the
exception `task_fn()` itself raised.  The `try/except` pushes any raised
exception as a sentinel, and the `finally` block pushes
`StopAsyncIteration` unconditionally afterwards. -/
def sync_worker_logic : Except PyExc ProducerRun → List StreamMsg
  | .error e => [.exc e, .stopAsyncIteration]
  | .ok run => pushLoop run.chunks run.failure ++ [.stopAsyncIteration]

/-- How the consumer loop of `response_generator` terminates: channel
exhausted by the end-of-stream sentinel (`done`), an exception sentinel
re-raised to the caller (`raised`), or the channel ran dry with no
sentinel so `await stream_channel.get()` blocks forever (`starved`). -/
inductive StreamEnd where
  | done
  | raised (e : PyExc)
  | starved
deriving DecidableEq, Repr

/-- The consumer loop of `response_generator` (`interenceQueue.py` lines
80-87) applied to the channel contents: yields tokens until it meets the
`StopAsyncIteration` sentinel (break) or an exception sentinel (raise).
The identity check `token is StopAsyncIteration` runs before the
`isinstance(token, Exception)` check, as in the source. -/
def response_generator : List StreamMsg → List String × StreamEnd
  | [] => ([], .starved)
  | .stopAsyncIteration :: _ => ([], .done)
  | .exc e :: _ => ([], .raised e)
  | .token t :: rest =>
    let r := response_generator rest
    (t :: r.1, r.2)

/-- Whether a channel element is a terminal sentinel rather than a token. -/
def StreamMsg.isTerminal : StreamMsg → Bool
  | .token _ => false
  | .exc _ => true
  | .stopAsyncIteration => true

/-- A Python value as seen by `ModelManager.generate_iterator`
(`modelManager.py` lines 113-119): the call
`self._queue.enqueue_stream(...)` is an async-function call written
*without* `await`, so it evaluates to a coroutine object; had it been
awaited it would have produced the async generator
`response_generator()` closed over the stream channel. -/
inductive PyStreamVal where
  | coroutineObj (channel : List StreamMsg)
  | asyncGenerator (channel : List StreamMsg)
deriving DecidableEq, Repr

/-- Python `async for token in obj: yield token` over a value: an async
generator is drained (yielding the behaviour of `response_generator`); a
coroutine object has no `__aiter__` method, so `async for` raises
`TypeError` before any element is produced. -/
def async_for_tokens : PyStreamVal → Except PyExc (List String × StreamEnd)
  | .asyncGenerator msgs => .ok (response_generator msgs)
  | .coroutineObj _ =>
    .error (.typeError "async for requires an object with __aiter__ method, got coroutine")

/-- The value bound to `generator` in `ModelManager.generate_iterator`:
`enqueue_stream` is `async def`, and the call site omits `await`, so the
bound value is the coroutine object, not the async generator. -/
def enqueue_stream_unawaited (producer : Except PyExc ProducerRun) : PyStreamVal :=
  .coroutineObj (sync_worker_logic producer)

/-- Consumer-side behaviour of `ModelManager.generate_iterator`: it runs
`async for token in generator: yield token` over the value returned by
the un-awaited `enqueue_stream` call. -/
def generate_iterator (producer : Except PyExc ProducerRun) :
    Except PyExc (List String × StreamEnd) :=
  async_for_tokens (enqueue_stream_unawaited producer)

/-- The producer of the streaming scenario of the specification: a blocking
iterator yielding the chunks whose texts are `"He"` then `"llo"`, then
completing normally. -/
def heLloProducer : Except PyExc ProducerRun :=
  .ok { chunks := [{ choices := [{ text := "He" }] },
                   { choices := [{ text := "llo" }] }],
        failure := none }

/-! ## The bounded queue and its single worker
(`interenceQueue.py`, `InferenceQueue`) -/

/-- Lookup in an association list by key (first match), as Python `dict`
indexing over the embedding of a dict as an ordered association list. -/
def lookupKey {α β : Type} [DecidableEq α] : List (α × β) → α → Option β
  | [], _ => none
  | p :: rest, k => if p.1 = k then some p.2 else lookupKey rest k

deriving instance DecidableEq for Except

/-- State of one `asyncio.Future`: freshly created (`pending`), cancelled
by the requester, or resolved by the worker with `set_result` /
`set_exception`. -/
inductive FutureState where
  | pending
  | cancelled
  | value (v : String)
  | exc (e : PyExc)
deriving DecidableEq, Repr

/-- Overwrite the entries of a future table for the given id. -/
def setFuture : List (Nat × FutureState) → Nat → FutureState → List (Nat × FutureState)
  | [], _, _ => []
  | p :: rest, i, v =>
    if p.1 = i then (i, v) :: setFuture rest i v else p :: setFuture rest i v

/-- One `(task_fn, future)` pair of the deque.  `id` is the identity of
the future object created for the item; `run` is the outcome of
`await task_fn()` when the worker reaches the item: a result value or a
raised exception. -/
structure WorkItem where
  id : Nat
  run : Except PyExc String
deriving DecidableEq, Repr

/-- Global state of an `InferenceQueue` together with the futures handed
out, the control point of the worker and history variables for the proofs.
`queue` is `self._queue`, `capacity` its `maxlen`, `processing` the
lifecycle flag; `running` holds the item the worker is currently
executing (the region between `popleft` and the result assignment).
`submitted`, `processed` and `begun` are ghost histories: ids in
admission order, ids in dequeue order, and ids whose task was actually
invoked, in invocation order. -/
structure QueueState where
  capacity : Nat
  nextId : Nat
  queue : List WorkItem
  futures : List (Nat × FutureState)
  running : Option WorkItem
  processing : Bool
  submitted : List Nat
  processed : List Nat
  begun : List Nat
deriving DecidableEq, Repr

/-- The `max_size: int = 100` default of `InferenceQueue.__init__`
(also the explicit `max_size=100` used by `ModelManager.__init__`). -/
def defaultMaxSize : Nat := 100

/-- A queue as built by `InferenceQueue(max_size)` after `start_worker`:
empty deque, no futures, worker idle, `processing` true. -/
def initState (cap : Nat) : QueueState :=
  { capacity := cap, nextId := 0, queue := [], futures := [], running := none,
    processing := true, submitted := [], processed := [], begun := [] }

/-- Embedding of `InferenceQueue.enqueue` (lines 27-39), admission part: raise
`asyncio.QueueFull` when `len(self._queue) >= self._queue.maxlen`,
otherwise create a fresh future and append `(task_fn, future)`. -/
def enqueue (s : QueueState) (run : Except PyExc String) : Except PyExc QueueState :=
  if s.queue.length ≥ s.capacity then
    .error (.queueFull "Inference queue is full")
  else
    .ok { s with
      nextId := s.nextId + 1,
      queue := s.queue ++ [⟨s.nextId, run⟩],
      futures := s.futures ++ [(s.nextId, .pending)],
      submitted := s.submitted ++ [s.nextId] }

/-- Embedding of `InferenceQueue.enqueue_stream` (lines 41-47 and 76), admission part:
the capacity check and append are identical to `enqueue`; `run` is the
outcome of `await task_fn()` for the appended `sync_worker_logic`
wrapper. -/
def enqueue_stream (s : QueueState) (run : Except PyExc String) : Except PyExc QueueState :=
  if s.queue.length ≥ s.capacity then
    .error (.queueFull "Inference queue is full")
  else
    .ok { s with
      nextId := s.nextId + 1,
      queue := s.queue ++ [⟨s.nextId, run⟩],
      futures := s.futures ++ [(s.nextId, .pending)],
      submitted := s.submitted ++ [s.nextId] }

/-- Embedding of `Future.cancel()` called by a requester: a pending future becomes
cancelled; a cancelled or resolved future is unchanged. -/
def cancelFuture (s : QueueState) (i : Nat) : QueueState :=
  match lookupKey s.futures i with
  | some .pending => { s with futures := setFuture s.futures i .cancelled }
  | _ => s

/-- Worker step 1 (`_worker`, lines 148-155): with no task in flight and
a non-empty deque, `popleft` the oldest item; if its future is already
cancelled, `continue` (the task is never invoked); otherwise start
executing the task. -/
def workerDequeue (s : QueueState) : QueueState :=
  match s.running, s.queue with
  | none, item :: rest =>
    if lookupKey s.futures item.id = some .cancelled then
      { s with queue := rest, processed := s.processed ++ [item.id] }
    else
      { s with queue := rest, processed := s.processed ++ [item.id],
               running := some item, begun := s.begun ++ [item.id] }
  | _, _ => s

/-- Worker step 2 (`_worker`, lines 157-163): `await task_fn()` has
finished with `item.run`; re-check cancellation, then `set_result` on
success or `set_exception` on a raised exception; a cancelled future is
left untouched.  In every case the loop continues. -/
def workerFinish (s : QueueState) : QueueState :=
  match s.running with
  | none => s
  | some item =>
    if lookupKey s.futures item.id = some .cancelled then
      { s with running := none }
    else
      { s with running := none,
               futures := setFuture s.futures item.id
                 (match item.run with
                  | .ok v => .value v
                  | .error e => .exc e) }

/-- One atomic step of the event loop restricted to this subsystem:
a successful admission, a requester-side cancellation, or one of the two
worker half-steps. -/
inductive QStep : QueueState → QueueState → Prop where
  | enqueueOk (s s' : QueueState) (run : Except PyExc String) :
      enqueue s run = .ok s' → QStep s s'
  | enqueueStreamOk (s s' : QueueState) (run : Except PyExc String) :
      enqueue_stream s run = .ok s' → QStep s s'
  | cancel (s : QueueState) (i : Nat) : QStep s (cancelFuture s i)
  | dequeue (s : QueueState) : QStep s (workerDequeue s)
  | finish (s : QueueState) : QStep s (workerFinish s)

/-- Zero or more event-loop steps. -/
def Reaches : QueueState → QueueState → Prop :=
  Relation.ReflTransGen QStep

/-- States reachable from a freshly started queue of capacity `cap`. -/
def Reachable (cap : Nat) (s : QueueState) : Prop :=
  Reaches (initState cap) s

/-! ## The residency manager (`modelManager.py`, `ModelManager`) -/

/-- The opaque native `Llama` instance returned by the `llama_cpp`
loader; only its identity matters here. -/
structure Llama where
  model_path : String
deriving DecidableEq, Repr

/-- The `LlamaBrain` wrapper created by `_load_model` around a loaded
`Llama` instance. -/
structure LlamaBrain where
  model : Llama
  model_id : String
deriving DecidableEq, Repr

/-- The static registry literal of `ModelManager.__init__`. -/
def model_registry : List (String × String) :=
  [("gemma-3-1b", "models/gemma-3-1b/google_gemma-3-1b-it-Q4_K_M.gguf")]

/-- The mutable residency state: `self._models`, a dict embedded as an
ordered association list (Python dict insertion order). -/
structure MMState where
  models : List (String × LlamaBrain)
deriving DecidableEq, Repr

/-- A fresh `ModelManager()`: no resident model. -/
def initMM : MMState := { models := [] }

/-- Embedding of `ModelManager.unload_model` (lines 81-89): if the id is resident,
delete its entry (`del self._models[model_id]`); otherwise do nothing. -/
def unload_model (s : MMState) (model_id : String) : MMState :=
  if (lookupKey s.models model_id).isSome then
    { models := s.models.filter (fun p => p.1 ≠ model_id) }
  else s

/-- Embedding of `ModelManager._load_model` (lines 151-175) with the external world as
parameters: `fileExists` is `os.path.exists`, `llamaLoad` the outcome of
constructing `Llama(model_path=...)` for a given path.  Registry check
first (`ValueError`), then file-existence check (`FileNotFoundError`),
then the load itself, whose failure is re-raised unchanged
(`raise e`). -/
def load_model (fileExists : String → Bool) (llamaLoad : String → Except PyExc Llama)
    (registry : List (String × String)) (model_id : String) : Except PyExc LlamaBrain :=
  match lookupKey registry model_id with
  | none => .error (.valueError ("Model " ++ model_id ++ " not found in registry."))
  | some model_path =>
    if fileExists model_path then
      match llamaLoad model_path with
      | .ok llama_instance => .ok { model := llama_instance, model_id := model_id }
      | .error e => .error e
    else
      .error (.fileNotFoundError
        ("Model file for " ++ model_id ++ " not found at " ++ model_path ++ "."))

/-- The eviction phase of `ModelManager._safe_load` (lines 141-145):
snapshot `list(self._models.keys())` and call `unload_model` on every
key different from the target. -/
def safeLoadEvict (s : MMState) (model_id : String) : MMState :=
  (s.models.map Prod.fst).foldl
    (fun acc k => if k ≠ model_id then unload_model acc k else acc) s

/-- Embedding of `ModelManager._safe_load` (lines 137-149): evict all other models,
then load the target if it is still missing.  Returns the state after
the call together with the exception propagated out of `_load_model`,
if any (the evictions persist even when the load fails). -/
def safe_load (fileExists : String → Bool) (llamaLoad : String → Except PyExc Llama)
    (registry : List (String × String)) (s : MMState) (model_id : String) :
    MMState × Option PyExc :=
  let s1 := safeLoadEvict s model_id
  if (lookupKey s1.models model_id).isSome then (s1, none)
  else
    match load_model fileExists llamaLoad registry model_id with
    | .ok brain => ({ models := s1.models ++ [(model_id, brain)] }, none)
    | .error e => (s1, some e)

/-- Embedding of `ModelManager._get_model` (lines 126-135): fast-path presence check;
on a miss, take the load lock, re-check (the double check collapses in
this sequential interleaving model because the whole critical section is
one atomic step), call `_safe_load`, and return `self._models[model_id]`
(a `KeyError` if it is somehow still absent). -/
def get_model (fileExists : String → Bool) (llamaLoad : String → Except PyExc Llama)
    (registry : List (String × String)) (s : MMState) (model_id : String) :
    MMState × Except PyExc LlamaBrain :=
  match lookupKey s.models model_id with
  | some brain => (s, .ok brain)
  | none =>
    match safe_load fileExists llamaLoad registry s model_id with
    | (s1, some e) => (s1, .error e)
    | (s1, none) =>
      match lookupKey s1.models model_id with
      | some brain => (s1, .ok brain)
      | none => (s1, .error (.other "KeyError"))

/-- Embedding of `ModelManager.warmup_models` (lines 95-100): call `_get_model` and
swallow any exception (it is only printed). -/
def warmup_models (fileExists : String → Bool) (llamaLoad : String → Except PyExc Llama)
    (registry : List (String × String)) (s : MMState) (model_id : String) : MMState :=
  (get_model fileExists llamaLoad registry s model_id).1

/-- One residency-changing call on the manager, with the external world
(filesystem and native loader outcome) chosen per call. -/
inductive MMStep : MMState → MMState → Prop where
  | unload (s : MMState) (model_id : String) : MMStep s (unload_model s model_id)
  | getModel (fe : String → Bool) (ll : String → Except PyExc Llama)
      (reg : List (String × String)) (s : MMState) (model_id : String) :
      MMStep s (get_model fe ll reg s model_id).1
  | safeLoad (fe : String → Bool) (ll : String → Except PyExc Llama)
      (reg : List (String × String)) (s : MMState) (model_id : String) :
      MMStep s (safe_load fe ll reg s model_id).1
  | warmup (fe : String → Bool) (ll : String → Except PyExc Llama)
      (reg : List (String × String)) (s : MMState) (model_id : String) :
      MMStep s (warmup_models fe ll reg s model_id)

/-- Residency states reachable from a fresh `ModelManager()`. -/
def MMReachable (s : MMState) : Prop :=
  Relation.ReflTransGen MMStep initMM s

/-! ## Shutdown (`InferenceQueue.shutdown`, `ModelManager.shutdown`) -/

/-- The lifecycle fields of an `InferenceQueue`: the `processing` flag
and the worker task (`none` before `start_worker`; `some b` afterwards,
where `b` records whether `cancel()` has been called on it). -/
structure QueueLifecycle where
  processing : Bool
  worker_task : Option Bool
deriving DecidableEq, Repr

/-- A Python value returned by a call, as far as `await` cares: `None`
(what a plain synchronous call returns) or an awaitable coroutine. -/
inductive PyVal where
  | pyNone
  | coroutine
deriving DecidableEq, Repr

/-- Embedding of `InferenceQueue.shutdown` (lines 20-25): a plain `def` that sets
`processing = False` and calls `cancel()` on the worker task if there is
one; being synchronous, the call expression evaluates to `None`. -/
def InferenceQueue.shutdown (s : QueueLifecycle) : QueueLifecycle × PyVal :=
  ({ processing := false, worker_task := s.worker_task.map (fun _ => true) }, .pyNone)

/-- Python `await v`: awaiting a coroutine runs it; awaiting `None`
raises `TypeError`. -/
def await_val (v : PyVal) : Except PyExc PyVal :=
  match v with
  | .coroutine => .ok .pyNone
  | .pyNone => .error (.typeError "object NoneType cannot be used in await expression")

/-- Embedding of `ModelManager.shutdown` (lines 102-104): `await self._queue.shutdown()`.
The synchronous `shutdown` call runs first (its effects persist), then
its `None` return value is awaited. -/
def ModelManager.shutdown (s : QueueLifecycle) : QueueLifecycle × Except PyExc PyVal :=
  let r := InferenceQueue.shutdown s
  (r.1, await_val r.2)

/-! ## Auxiliary definitions for the statements -/

/-- Whether an admission call returned normally (no exception). -/
def isOkB (r : Except PyExc QueueState) : Bool :=
  match r with
  | .ok _ => true
  | .error _ => false

/-- Modelled from the spec: "fails with `LoadError` (wrapping the
underlying cause)" — the surfaced error is a dedicated `LoadError`
exception that wraps the original cause.  No such wrapper class exists
in the source; this definition exists to be compared against
`load_model`. -/
def surfacedAsLoadError (cause : PyExc) (r : Except PyExc LlamaBrain) : Prop :=
  r = .error (.loadError cause)

/-! ## Concrete states used by the witnesses -/

/-- A freshly started queue of the default capacity. -/
def wq0 : QueueState := initState 100

/-- State `wq0` after one successful `enqueue` of a task returning `"a"`. -/
def wq1 : QueueState :=
  { wq0 with
    nextId := 1,
    queue := [⟨0, .ok "a"⟩],
    futures := [(0, FutureState.pending)],
    submitted := [0] }

/-- State `wq1` after the worker pops the item and starts it. -/
def wq2 : QueueState := workerDequeue wq1

/-- State `wq2` after the worker finishes the item and resolves its future. -/
def wq3 : QueueState := workerFinish wq2

/-- A queue whose worker is executing a task that raises `"boom"`, with
a second task waiting behind it. -/
def wc5 : QueueState :=
  { capacity := 100, nextId := 2, queue := [⟨1, .ok "b"⟩],
    futures := [(0, FutureState.pending), (1, FutureState.pending)],
    running := some ⟨0, .error (.other "boom")⟩, processing := true,
    submitted := [0, 1], processed := [0], begun := [0] }

/-- A queue holding one not-yet-dequeued item whose future was already
cancelled by the requester. -/
def wc9 : QueueState :=
  { capacity := 100, nextId := 1, queue := [⟨0, .ok "x"⟩],
    futures := [(0, FutureState.cancelled)], running := none,
    processing := true, submitted := [0], processed := [], begun := [] }

/-- A queue whose worker is executing an item whose future was cancelled
after the dequeue. -/
def wc10 : QueueState :=
  { capacity := 100, nextId := 1, queue := [],
    futures := [(0, FutureState.cancelled)],
    running := some ⟨0, .ok "late"⟩, processing := true,
    submitted := [0], processed := [0], begun := [0] }

/-- A filesystem on which every path exists. -/
def feTrue : String → Bool := fun _ => true

/-- A native loader that always succeeds. -/
def llOk : String → Except PyExc Llama := fun p => .ok { model_path := p }

/-- The manager state after a successful warm `get_model` of the default
model from a fresh manager. -/
def wm1 : MMState := (get_model feTrue llOk model_registry initMM "gemma-3-1b").1

/-! ## Helper lemmas: association lists and futures -/

theorem lookupKey_append_left {α β : Type} [DecidableEq α]
    (fs gs : List (α × β)) (i : α) (v : β) (h : lookupKey fs i = some v) :
    lookupKey (fs ++ gs) i = some v := by
  induction fs with
  | nil => simp [lookupKey] at h
  | cons p rest ih =>
    simp only [lookupKey, List.cons_append] at h ⊢
    split at h
    · next hpi => rw [if_pos hpi]; exact h
    · next hpi => rw [if_neg hpi]; exact ih h

theorem lookupKey_setFuture_self (fs : List (Nat × FutureState)) (i : Nat)
    (v w : FutureState) (h : lookupKey fs i = some w) :
    lookupKey (setFuture fs i v) i = some v := by
  induction fs with
  | nil => simp [lookupKey] at h
  | cons p rest ih =>
    by_cases hp : p.1 = i
    · simp [setFuture, lookupKey, hp]
    · simp only [lookupKey, setFuture, hp, if_false] at h ⊢
      exact ih h

theorem lookupKey_setFuture_ne (fs : List (Nat × FutureState)) (i j : Nat)
    (v : FutureState) (hne : j ≠ i) :
    lookupKey (setFuture fs i v) j = lookupKey fs j := by
  induction fs with
  | nil => simp [lookupKey, setFuture]
  | cons p rest ih =>
    simp only [lookupKey, setFuture]
    by_cases hp : p.1 = i
    · subst hp
      simp only [lookupKey]
      rw [if_neg (fun he => hne he.symm), if_neg (fun he => hne he.symm)]
      exact ih
    · simp only [hp, if_false, lookupKey]
      by_cases hj : p.1 = j
      · simp [hj]
      · simp only [hj, if_false]
        exact ih

theorem lookupKey_none_not_mem {α β : Type} [DecidableEq α]
    (l : List (α × β)) (k : α) (h : lookupKey l k = none) :
    ∀ p ∈ l, p.1 ≠ k := by
  induction l with
  | nil => intro p hp; simp at hp
  | cons q rest ih =>
    intro p hp
    simp only [lookupKey] at h
    split at h
    · simp at h
    · next hq =>
      rcases List.mem_cons.mp hp with rfl | hp'
      · exact hq
      · exact ih h p hp'

/-! ## Helper lemmas: admission -/

theorem enqueue_ok_elim (s : QueueState) (run : Except PyExc String) (s1 : QueueState)
    (h : enqueue s run = .ok s1) :
    s.queue.length < s.capacity ∧
      s1 = { s with
        nextId := s.nextId + 1,
        queue := s.queue ++ [⟨s.nextId, run⟩],
        futures := s.futures ++ [(s.nextId, .pending)],
        submitted := s.submitted ++ [s.nextId] } := by
  unfold enqueue at h
  split at h
  · exact absurd h (by simp)
  · next hge => exact ⟨by omega, by exact (Except.ok.inj h).symm⟩

theorem enqueue_stream_ok_elim (s : QueueState) (run : Except PyExc String) (s1 : QueueState)
    (h : enqueue_stream s run = .ok s1) :
    s.queue.length < s.capacity ∧
      s1 = { s with
        nextId := s.nextId + 1,
        queue := s.queue ++ [⟨s.nextId, run⟩],
        futures := s.futures ++ [(s.nextId, .pending)],
        submitted := s.submitted ++ [s.nextId] } := by
  unfold enqueue_stream at h
  split at h
  · exact absurd h (by simp)
  · next hge => exact ⟨by omega, by exact (Except.ok.inj h).symm⟩

/-! ## The queue invariant -/

/-- Invariant of the event-loop model: the deque never exceeds capacity;
the admission history splits into the dequeued prefix and the current
deque contents; the invocation trace is a subtrace of the dequeue order;
admitted ids are fresh and pairwise distinct. -/
structure QInv (s : QueueState) : Prop where
  len_le : s.queue.length ≤ s.capacity
  sub_eq : s.submitted = s.processed ++ s.queue.map WorkItem.id
  begun_sub : s.begun.Sublist s.processed
  ids_lt : ∀ i ∈ s.submitted, i < s.nextId
  nodup : s.submitted.Nodup

theorem qinv_init (cap : Nat) : QInv (initState cap) := by
  constructor <;> simp [initState]

theorem qinv_enqueue (s s1 : QueueState) (run : Except PyExc String)
    (hinv : QInv s)
    (h : s.queue.length < s.capacity ∧
      s1 = { s with
        nextId := s.nextId + 1,
        queue := s.queue ++ [⟨s.nextId, run⟩],
        futures := s.futures ++ [(s.nextId, .pending)],
        submitted := s.submitted ++ [s.nextId] }) : QInv s1 := by
  obtain ⟨hlt, rfl⟩ := h
  constructor
  · dsimp only
    simp only [List.length_append, List.length_singleton]
    omega
  · dsimp only
    simp [hinv.sub_eq, List.map_append]
  · exact hinv.begun_sub
  · dsimp only
    intro i hi
    rcases List.mem_append.mp hi with hi | hi
    · exact Nat.lt_succ_of_lt (hinv.ids_lt i hi)
    · simp at hi
      omega
  · dsimp only
    rw [List.nodup_append]
    refine ⟨hinv.nodup, List.nodup_singleton _, ?_⟩
    intro a ha hb
    have := hinv.ids_lt a ha
    simp at hb
    omega

theorem qinv_cancel (s : QueueState) (i : Nat) (hinv : QInv s) :
    QInv (cancelFuture s i) := by
  unfold cancelFuture
  split
  · exact ⟨hinv.len_le, hinv.sub_eq, hinv.begun_sub, hinv.ids_lt, hinv.nodup⟩
  · exact hinv

theorem qinv_dequeue (s : QueueState) (hinv : QInv s) : QInv (workerDequeue s) := by
  unfold workerDequeue
  split
  · next item rest hrun hq =>
    have hsub : s.submitted = (s.processed ++ [item.id]) ++ rest.map WorkItem.id := by
      rw [hinv.sub_eq, hq]
      simp
    have hlen : rest.length ≤ s.capacity := by
      have := hinv.len_le
      rw [hq] at this
      simp only [List.length_cons] at this
      omega
    split
    · exact ⟨hlen, hsub,
        hinv.begun_sub.trans (List.sublist_append_left _ _),
        hinv.ids_lt, hinv.nodup⟩
    · exact ⟨hlen, hsub,
        List.Sublist.append hinv.begun_sub (List.Sublist.refl _),
        hinv.ids_lt, hinv.nodup⟩
  · exact hinv

theorem qinv_finish (s : QueueState) (hinv : QInv s) : QInv (workerFinish s) := by
  unfold workerFinish
  split
  · exact hinv
  · split
    · exact ⟨hinv.len_le, hinv.sub_eq, hinv.begun_sub, hinv.ids_lt, hinv.nodup⟩
    · exact ⟨hinv.len_le, hinv.sub_eq, hinv.begun_sub, hinv.ids_lt, hinv.nodup⟩

theorem qinv_step (s t : QueueState) (hst : QStep s t) (hinv : QInv s) : QInv t := by
  cases hst with
  | enqueueOk t2 r hr => exact qinv_enqueue s t r hinv (enqueue_ok_elim s r t hr)
  | enqueueStreamOk t2 r hr =>
    exact qinv_enqueue s t r hinv (enqueue_stream_ok_elim s r t hr)
  | cancel i => exact qinv_cancel s i hinv
  | dequeue => exact qinv_dequeue s hinv
  | finish => exact qinv_finish s hinv

theorem reachable_qinv (cap : Nat) (s : QueueState) (h : Reachable cap s) : QInv s := by
  induction h with
  | refl => exact qinv_init cap
  | tail _ hstep ih => exact qinv_step _ _ hstep ih

/-! ## Helper lemmas: cancellation is absorbing -/

theorem cancelFuture_futures (s : QueueState) (j : Nat) :
    (cancelFuture s j).futures = s.futures ∨
      ((cancelFuture s j).futures = setFuture s.futures j .cancelled ∧
        lookupKey s.futures j = some .pending) := by
  unfold cancelFuture
  rcases hl : lookupKey s.futures j with - | f
  · left; rfl
  · cases f
    · right; exact ⟨rfl, rfl⟩
    · left; rfl
    · left; rfl
    · left; rfl

theorem cancelFuture_core (s : QueueState) (j : Nat) :
    (cancelFuture s j).queue = s.queue ∧ (cancelFuture s j).begun = s.begun ∧
      (cancelFuture s j).running = s.running := by
  unfold cancelFuture
  split
  · exact ⟨rfl, rfl, rfl⟩
  · exact ⟨rfl, rfl, rfl⟩

theorem workerDequeue_futures (s : QueueState) : (workerDequeue s).futures = s.futures := by
  unfold workerDequeue
  split
  · split <;> rfl
  · rfl

theorem qstep_preserves_cancelled (s t : QueueState) (i : Nat) (hst : QStep s t)
    (hc : lookupKey s.futures i = some .cancelled) :
    lookupKey t.futures i = some .cancelled := by
  cases hst with
  | enqueueOk t2 r hr =>
    obtain ⟨-, h2⟩ := enqueue_ok_elim s r t hr
    subst h2
    dsimp only
    exact lookupKey_append_left _ _ _ _ hc
  | enqueueStreamOk t2 r hr =>
    obtain ⟨-, h2⟩ := enqueue_stream_ok_elim s r t hr
    subst h2
    dsimp only
    exact lookupKey_append_left _ _ _ _ hc
  | cancel j =>
    rcases cancelFuture_futures s j with hf | ⟨hf, hp⟩
    · rw [hf]; exact hc
    · rw [hf]
      by_cases hij : i = j
      · subst hij
        rw [hc] at hp
        exact absurd hp (by simp)
      · rw [lookupKey_setFuture_ne s.futures j i _ hij]
        exact hc
  | dequeue =>
    rw [workerDequeue_futures]
    exact hc
  | finish =>
    unfold workerFinish
    rcases hrun : s.running with - | item
    · exact hc
    · dsimp only
      by_cases hguard : lookupKey s.futures item.id = some .cancelled
      · rw [if_pos hguard]
        exact hc
      · rw [if_neg hguard]
        dsimp only
        have hii : i ≠ item.id := by
          intro he
          exact hguard (he ▸ hc)
        rw [lookupKey_setFuture_ne s.futures item.id i _ hii]
        exact hc

theorem qstep_preserves_not_begun (s t : QueueState) (i : Nat) (hst : QStep s t)
    (hc : lookupKey s.futures i = some .cancelled) (hb : i ∉ s.begun) :
    i ∉ t.begun := by
  cases hst with
  | enqueueOk t2 r hr =>
    obtain ⟨-, h2⟩ := enqueue_ok_elim s r t hr
    subst h2
    exact hb
  | enqueueStreamOk t2 r hr =>
    obtain ⟨-, h2⟩ := enqueue_stream_ok_elim s r t hr
    subst h2
    exact hb
  | cancel j =>
    rw [(cancelFuture_core s j).2.1]
    exact hb
  | dequeue =>
    unfold workerDequeue
    split
    · next item rest hrun hq =>
      split
      · exact hb
      · next hguard =>
        dsimp only
        simp only [List.mem_append, List.mem_singleton]
        rintro (h | h)
        · exact hb h
        · exact hguard (h ▸ hc)
    · exact hb
  | finish =>
    unfold workerFinish
    rcases hrun : s.running with - | item
    · exact hb
    · dsimp only
      split
      · exact hb
      · exact hb

/-! ## Helper lemmas: residency -/

theorem mem_unload_model (s : MMState) (k : String) (p : String × LlamaBrain)
    (hp : p ∈ (unload_model s k).models) : p ∈ s.models ∧ p.1 ≠ k := by
  unfold unload_model at hp
  split at hp
  · dsimp only at hp
    rw [List.mem_filter] at hp
    refine ⟨hp.1, ?_⟩
    simpa using hp.2
  · next hnone =>
    refine ⟨hp, ?_⟩
    have hn : lookupKey s.models k = none := by
      cases hl : lookupKey s.models k
      · rfl
      · rw [hl] at hnone; simp at hnone
    exact lookupKey_none_not_mem s.models k hn p hp

theorem unload_model_len (s : MMState) (k : String) :
    (unload_model s k).models.length ≤ s.models.length := by
  unfold unload_model
  split
  · exact List.length_filter_le _ _
  · exact Nat.le_refl _

theorem evict_fold_keys (model_id : String) (ks : List String) :
    ∀ acc : MMState, (∀ p ∈ acc.models, p.1 ∈ ks ∨ p.1 = model_id) →
      ∀ p ∈ (ks.foldl (fun acc k => if k ≠ model_id then unload_model acc k else acc)
        acc).models, p.1 = model_id := by
  induction ks with
  | nil =>
    intro acc hacc p hp
    rcases hacc p hp with h | h
    · simp at h
    · exact h
  | cons k rest ih =>
    intro acc hacc p hp
    rw [List.foldl_cons] at hp
    refine ih _ ?_ p hp
    intro q hq
    by_cases hk : k ≠ model_id
    · rw [if_pos hk] at hq
      obtain ⟨hq1, hq2⟩ := mem_unload_model acc k q hq
      rcases hacc q hq1 with hmem | heq
      · rcases List.mem_cons.mp hmem with heq2 | hmem2
        · exact absurd heq2 hq2
        · exact Or.inl hmem2
      · exact Or.inr heq
    · rw [if_neg hk] at hq
      push_neg at hk
      rcases hacc q hq with hmem | heq
      · rcases List.mem_cons.mp hmem with heq2 | hmem2
        · exact Or.inr (heq2.trans hk)
        · exact Or.inl hmem2
      · exact Or.inr heq

theorem safeLoadEvict_keys (s : MMState) (model_id : String) :
    ∀ p ∈ (safeLoadEvict s model_id).models, p.1 = model_id := by
  unfold safeLoadEvict
  refine evict_fold_keys model_id (s.models.map Prod.fst) s ?_
  intro p hp
  exact Or.inl (List.mem_map_of_mem Prod.fst hp)

theorem evict_fold_len (model_id : String) (ks : List String) :
    ∀ acc : MMState,
      ((ks.foldl (fun acc k => if k ≠ model_id then unload_model acc k else acc)
        acc).models.length ≤ acc.models.length) := by
  induction ks with
  | nil => intro acc; simp
  | cons k rest ih =>
    intro acc
    rw [List.foldl_cons]
    refine (ih _).trans ?_
    by_cases hk : k ≠ model_id
    · rw [if_pos hk]
      exact unload_model_len acc k
    · rw [if_neg hk]

theorem safeLoadEvict_len (s : MMState) (model_id : String) :
    (safeLoadEvict s model_id).models.length ≤ s.models.length :=
  evict_fold_len model_id (s.models.map Prod.fst) s

theorem safe_load_fst_len (fe : String → Bool) (ll : String → Except PyExc Llama)
    (reg : List (String × String)) (s : MMState) (model_id : String)
    (h : s.models.length ≤ 1) :
    ((safe_load fe ll reg s model_id).1).models.length ≤ 1 := by
  unfold safe_load
  dsimp only
  have hlen : (safeLoadEvict s model_id).models.length ≤ 1 :=
    (safeLoadEvict_len s model_id).trans h
  by_cases hsome : (lookupKey (safeLoadEvict s model_id).models model_id).isSome
  · rw [if_pos hsome]
    exact hlen
  · rw [if_neg hsome]
    cases hlm : load_model fe ll reg model_id with
    | ok brain =>
      dsimp only
      have hnone : lookupKey (safeLoadEvict s model_id).models model_id = none := by
        cases hx : lookupKey (safeLoadEvict s model_id).models model_id
        · rfl
        · rw [hx] at hsome
          simp at hsome
      have hnil : (safeLoadEvict s model_id).models = [] := by
        cases hm : (safeLoadEvict s model_id).models with
        | nil => rfl
        | cons q rest =>
          have hq : q ∈ (safeLoadEvict s model_id).models := by
            rw [hm]
            exact List.mem_cons_self _ _
          have h1 : q.1 = model_id := safeLoadEvict_keys s model_id q hq
          have h2 : q.1 ≠ model_id := lookupKey_none_not_mem _ _ hnone q hq
          exact absurd h1 h2
      simp [hnil]
    | error e => exact hlen

theorem get_model_fst (fe : String → Bool) (ll : String → Except PyExc Llama)
    (reg : List (String × String)) (s : MMState) (model_id : String) :
    (get_model fe ll reg s model_id).1 = s ∨
      (get_model fe ll reg s model_id).1 = (safe_load fe ll reg s model_id).1 := by
  unfold get_model
  split
  · left; rfl
  · split
    · next s1 e hsl => right; rw [hsl]
    · next s1 hsl =>
      split
      · right; rw [hsl]
      · right; rw [hsl]

theorem mm_step_len (s t : MMState) (hst : MMStep s t) (h : s.models.length ≤ 1) :
    t.models.length ≤ 1 := by
  cases hst with
  | unload x model_id => exact (unload_model_len s model_id).trans h
  | getModel fe ll reg x model_id =>
    rcases get_model_fst fe ll reg s model_id with hg | hg
    · rw [hg]; exact h
    · rw [hg]; exact safe_load_fst_len fe ll reg s model_id h
  | safeLoad fe ll reg x model_id => exact safe_load_fst_len fe ll reg s model_id h
  | warmup fe ll reg x model_id =>
    unfold warmup_models
    rcases get_model_fst fe ll reg s model_id with hg | hg
    · rw [hg]; exact h
    · rw [hg]; exact safe_load_fst_len fe ll reg s model_id h

theorem mm_reachable_len (s : MMState) (h : MMReachable s) : s.models.length ≤ 1 := by
  induction h with
  | refl => simp [initMM]
  | tail _ hstep ih => exact mm_step_len _ _ hstep ih

/-! ## Helper lemmas: the stream channel -/

theorem pushLoop_shape (chunks : List StreamChunk) (f : Option PyExc) :
    ∃ toks : List String,
      pushLoop chunks f = toks.map StreamMsg.token ∨
        ∃ e, pushLoop chunks f = toks.map StreamMsg.token ++ [.exc e] := by
  induction chunks with
  | nil =>
    cases f with
    | none => exact ⟨[], Or.inl rfl⟩
    | some e => exact ⟨[], Or.inr ⟨e, rfl⟩⟩
  | cons c rest ih =>
    rcases hch : c.choices with - | ⟨ch, chrest⟩
    · refine ⟨[], Or.inr ⟨.indexError "list index out of range", ?_⟩⟩
      simp [pushLoop, hch]
    · obtain ⟨toks, htoks⟩ := ih
      rcases htoks with hcase | ⟨e, hcase⟩
      · refine ⟨ch.text :: toks, Or.inl ?_⟩
        simp [pushLoop, hch, hcase]
      · refine ⟨ch.text :: toks, Or.inr ⟨e, ?_⟩⟩
        simp [pushLoop, hch, hcase]

theorem response_generator_token_prefix (toks : List String) (rest : List StreamMsg) :
    response_generator (toks.map StreamMsg.token ++ rest) =
      (toks ++ (response_generator rest).1, (response_generator rest).2) := by
  induction toks with
  | nil => simp
  | cons t ts ih => simp [response_generator, ih]

theorem count_stop_token_map (toks : List String) :
    (toks.map StreamMsg.token).count StreamMsg.stopAsyncIteration = 0 := by
  rw [List.count_eq_zero]
  intro hmem
  rcases List.mem_map.mp hmem with ⟨t, -, ht⟩
  exact absurd ht (by simp)

theorem sync_worker_logic_shape (r : Except PyExc ProducerRun) :
    ∃ toks : List String,
      sync_worker_logic r = toks.map StreamMsg.token ++ [.stopAsyncIteration] ∨
        ∃ e, sync_worker_logic r =
          toks.map StreamMsg.token ++ [.exc e, .stopAsyncIteration] := by
  cases r with
  | error e => exact ⟨[], Or.inr ⟨e, rfl⟩⟩
  | ok run =>
    obtain ⟨toks, hcase⟩ := pushLoop_shape run.chunks run.failure
    rcases hcase with hcase | ⟨e, hcase⟩
    · refine ⟨toks, Or.inl ?_⟩
      simp [sync_worker_logic, hcase]
    · refine ⟨toks, Or.inr ⟨e, ?_⟩⟩
      simp [sync_worker_logic, hcase]

/-! ## The claims -/

/-- Claim C6: for every run of a streaming producer (`r` is the outcome of
`task_fn()`: the producer run, or the exception it raised), the channel
written by `sync_worker_logic` consists of the produced tokens followed
by a terminal part, the `StopAsyncIteration` end-of-stream sentinel is
pushed exactly once — by the guaranteed-run `finally` block, even when
the producer raised — it is the last element of the channel, and the
consumer (`response_generator`) delivers exactly the produced tokens and
then terminates at exactly one terminal marker (end-of-stream on normal
completion, the raised error otherwise), delivering no token after it. -/
theorem claim6_stream_channel_terminators (r : Except PyExc ProducerRun) :
    (sync_worker_logic r).count StreamMsg.stopAsyncIteration = 1 ∧
    ∃ toks : List String,
      (sync_worker_logic r = toks.map StreamMsg.token ++ [.stopAsyncIteration] ∧
        response_generator (sync_worker_logic r) = (toks, .done)) ∨
      ∃ e, sync_worker_logic r = toks.map StreamMsg.token ++ [.exc e, .stopAsyncIteration] ∧
        response_generator (sync_worker_logic r) = (toks, .raised e) := by
  obtain ⟨toks, hsh⟩ := sync_worker_logic_shape r
  constructor
  · rcases hsh with hcase | ⟨e, hcase⟩
    · rw [hcase, List.count_append, count_stop_token_map]
      simp
    · rw [hcase, List.count_append, count_stop_token_map]
      simp
  · refine ⟨toks, ?_⟩
    rcases hsh with hcase | ⟨e, hcase⟩
    · refine Or.inl ⟨hcase, ?_⟩
      rw [hcase, response_generator_token_prefix]
      simp [response_generator]
    · refine Or.inr ⟨e, hcase, ?_⟩
      rw [hcase, response_generator_token_prefix]
      simp [response_generator]

/-- Claim C1: the streaming scenario as wired through
`ModelManager.generate_iterator` does not deliver the tokens: because
the call `self._queue.enqueue_stream(...)` is not awaited, `async for`
is applied to a coroutine object and raises `TypeError` before any token
is produced and before the request is even admitted (first conjunct).
The second conjunct shows the intended consumer-side behaviour the claim
describes — the producer yielding `"He"`, `"llo"` then completing makes
the per-request channel deliver exactly `"He"`, `"llo"` and then
end-of-stream with no error — which the bridge itself
(`sync_worker_logic` pushed by the worker, `response_generator` read by
the consumer, over the private channel of the request) does satisfy. -/
theorem claim1_generate_iterator_stream_scenario :
    generate_iterator heLloProducer =
      .error (.typeError "async for requires an object with __aiter__ method, got coroutine") ∧
    response_generator (sync_worker_logic heLloProducer) = (["He", "llo"], .done) := by
  exact ⟨rfl, rfl⟩

/-- Claim C8: `InferenceQueue.shutdown` does set the lifecycle flag to
stopped and cancel the worker task, but the composed
`ModelManager.shutdown` then awaits the `None` returned by that
synchronous call, so the composed call raises `TypeError` — it does not
complete without raising an error of its own. -/
theorem claim8_shutdown_sets_flag_but_raises :
    (ModelManager.shutdown ⟨true, some false⟩).1 = ⟨false, some true⟩ ∧
    (ModelManager.shutdown ⟨true, some false⟩).2 =
      .error (.typeError "object NoneType cannot be used in await expression") := by
  exact ⟨rfl, rfl⟩

/-- Claim C7, counterexample: a load failure (`Llama(...)` raising an
out-of-memory error for a registered model whose file exists) is
surfaced by `_load_model` as the original exception itself, not as a
dedicated `LoadError` wrapping the cause. -/
theorem claim7_counterexample :
    load_model (fun _ => true) (fun _ => .error (.other "llama OOM"))
      [("m", "models/m.gguf")] "m" = .error (.other "llama OOM") ∧
    ¬ surfacedAsLoadError (.other "llama OOM")
      (load_model (fun _ => true) (fun _ => .error (.other "llama OOM"))
        [("m", "models/m.gguf")] "m") := by
  refine ⟨by decide, ?_⟩
  unfold surfacedAsLoadError
  decide

/-- Claim C7, amended: for every `modelId`, `_load_model` fails with
`ValueError` (the "unknown model" error) when the id is absent from the
static registry, regardless of the filesystem and loader; otherwise
fails with `FileNotFoundError` when the configured path does not exist,
regardless of the loader; otherwise re-raises any underlying load
failure unchanged (no wrapper); otherwise returns the loaded brain — so
the registry check precedes the file-existence check, which precedes the
actual load. -/
theorem claim7_amended_load_error_order (fe : String → Bool)
    (ll : String → Except PyExc Llama) (reg : List (String × String)) (model_id : String) :
    (lookupKey reg model_id = none →
      load_model fe ll reg model_id =
        .error (.valueError ("Model " ++ model_id ++ " not found in registry."))) ∧
    (∀ path, lookupKey reg model_id = some path → fe path = false →
      load_model fe ll reg model_id =
        .error (.fileNotFoundError
          ("Model file for " ++ model_id ++ " not found at " ++ path ++ "."))) ∧
    (∀ path e, lookupKey reg model_id = some path → fe path = true → ll path = .error e →
      load_model fe ll reg model_id = .error e) ∧
    (∀ path inst, lookupKey reg model_id = some path → fe path = true → ll path = .ok inst →
      load_model fe ll reg model_id = .ok { model := inst, model_id := model_id }) := by
  refine ⟨?_, ?_, ?_, ?_⟩
  · intro hnone
    unfold load_model
    rw [hnone]
  · intro path hsome hfe
    unfold load_model
    rw [hsome]
    dsimp only
    rw [hfe]
    simp
  · intro path e hsome hfe hll
    unfold load_model
    rw [hsome]
    dsimp only
    rw [hfe, hll]
    simp
  · intro path inst hsome hfe hll
    unfold load_model
    rw [hsome]
    dsimp only
    rw [hfe, hll]
    simp

/-- Witness for the amended C7 at a concrete input: an id missing from
an empty registry fails with the `ValueError`, whatever the filesystem
and loader do. -/
theorem claim7_witness :
    load_model feTrue (fun _ => .error (.other "llama OOM")) [] "x" =
      .error (.valueError ("Model " ++ "x" ++ " not found in registry.")) :=
  (claim7_amended_load_error_order feTrue (fun _ => .error (.other "llama OOM")) [] "x").1 rfl

/-- Claim C2: at every state of the manager reachable from a fresh
`ModelManager()` by `unload_model`, `_safe_load`, `_get_model` and
`warmup_models` calls (with arbitrary filesystem and loader outcomes per
call), at most one model is resident; moreover the eviction phase of
`_safe_load` removes every resident model other than the target before
the load step runs (every entry surviving eviction carries the target
id). -/
theorem claim2_single_resident_model (s : MMState) (h : MMReachable s) :
    s.models.length ≤ 1 ∧
    (∀ (t : MMState) (model_id : String),
      ∀ p ∈ (safeLoadEvict t model_id).models, p.1 = model_id) :=
  ⟨mm_reachable_len s h, fun t model_id => safeLoadEvict_keys t model_id⟩

/-- Witness for C2: after one `_get_model "gemma-3-1b"` call that loads
successfully, the resident map of the reached state has at most one
entry. -/
theorem claim2_witness : wm1.models.length ≤ 1 :=
  (claim2_single_resident_model wm1
    (Relation.ReflTransGen.single
      (MMStep.getModel feTrue llOk model_registry initMM "gemma-3-1b"))).1

/-- Claim C3: at every reachable queue state, `len(queue) <= capacity`
(with the default capacity being 100); both `enqueue` and
`enqueue_stream` succeed iff the current depth is strictly below
capacity; at or above capacity they raise `asyncio.QueueFull`
immediately, and on success each appends exactly one item at the back. -/
theorem claim3_admission_capacity (cap : Nat) (s : QueueState) (h : Reachable cap s)
    (r1 r2 : Except PyExc String) :
    s.queue.length ≤ s.capacity ∧
    defaultMaxSize = 100 ∧
    (isOkB (enqueue s r1) = true ↔ s.queue.length < s.capacity) ∧
    (isOkB (enqueue_stream s r2) = true ↔ s.queue.length < s.capacity) ∧
    (s.queue.length ≥ s.capacity →
      enqueue s r1 = .error (.queueFull "Inference queue is full") ∧
      enqueue_stream s r2 = .error (.queueFull "Inference queue is full")) ∧
    (∀ s1, enqueue s r1 = .ok s1 →
      s1.queue = s.queue ++ [⟨s.nextId, r1⟩] ∧ s1.queue.length = s.queue.length + 1) ∧
    (∀ s1, enqueue_stream s r2 = .ok s1 →
      s1.queue = s.queue ++ [⟨s.nextId, r2⟩] ∧ s1.queue.length = s.queue.length + 1) := by
  have hinv := reachable_qinv cap s h
  refine ⟨hinv.len_le, rfl, ?_, ?_, ?_, ?_, ?_⟩
  · unfold enqueue isOkB
    by_cases hge : s.queue.length ≥ s.capacity
    · rw [if_pos hge]
      simp
      omega
    · rw [if_neg hge]
      simp
      omega
  · unfold enqueue_stream isOkB
    by_cases hge : s.queue.length ≥ s.capacity
    · rw [if_pos hge]
      simp
      omega
    · rw [if_neg hge]
      simp
      omega
  · intro hge
    constructor
    · unfold enqueue
      rw [if_pos hge]
    · unfold enqueue_stream
      rw [if_pos hge]
  · intro s1 hok
    obtain ⟨-, rfl⟩ := enqueue_ok_elim s r1 s1 hok
    dsimp only
    simp
  · intro s1 hok
    obtain ⟨-, rfl⟩ := enqueue_stream_ok_elim s r2 s1 hok
    dsimp only
    simp

/-- Witness for C3 at the freshly started default queue: admission of a
task succeeds exactly because the depth 0 is below the capacity 100. -/
theorem claim3_witness :
    isOkB (enqueue wq0 (.ok "a")) = true ↔ wq0.queue.length < wq0.capacity :=
  (claim3_admission_capacity 100 wq0 Relation.ReflTransGen.refl (.ok "a") (.ok "b")).2.2.1

/-- Claim C4: at every reachable queue state, the invocation trace
(`begun`, the ids whose task the worker invoked, in invocation order) is
a subsequence of the admission order (`submitted`) — the single worker
executes work items strictly in FIFO submission order; the trace has no
duplicates — each work item is executed at most once; and the execution
slot of the worker holds at most one item — no two work items execute at the
same time (the source has exactly one worker task consuming the deque). -/
theorem claim4_fifo_single_worker (cap : Nat) (s : QueueState) (h : Reachable cap s) :
    s.begun.Sublist s.submitted ∧ s.begun.Nodup ∧ s.running.toList.length ≤ 1 := by
  have hinv := reachable_qinv cap s h
  have hps : s.processed.Sublist s.submitted := by
    rw [hinv.sub_eq]
    exact List.sublist_append_left _ _
  have hbs : s.begun.Sublist s.submitted := hinv.begun_sub.trans hps
  refine ⟨hbs, List.Nodup.sublist hbs hinv.nodup, ?_⟩
  cases s.running <;> simp

/-- Witness for C4: the state reached by admitting one task, dequeuing
it and finishing it satisfies the three conjuncts. -/
theorem claim4_witness :
    wq3.begun.Sublist wq3.submitted ∧ wq3.begun.Nodup ∧ wq3.running.toList.length ≤ 1 :=
  claim4_fifo_single_worker 100 wq3
    (Relation.ReflTransGen.tail
      (Relation.ReflTransGen.tail
        (Relation.ReflTransGen.single (QStep.enqueueOk wq0 wq1 (.ok "a") (by decide)))
        (QStep.dequeue wq1))
      (QStep.finish wq2))

/-- Claim C5: when the worker finishes an item whose task raised `e` (and
whose future is still pending), the exception is captured and set on
the future of that item via `set_exception`; the worker loop does not
propagate it — the worker returns to its idle control point with the
lifecycle flag and the rest of the deque untouched — and it then
dequeues and invokes the next waiting item as usual.  The final conjunct
records the streaming variant: a producer whose `task_fn()` raises has
the exception delivered as a stream-terminating sentinel. -/
theorem claim5_task_exception_captured (s : QueueState) (item : WorkItem) (e : PyExc)
    (h1 : s.running = some item) (h2 : item.run = .error e)
    (h3 : lookupKey s.futures item.id = some .pending) :
    lookupKey (workerFinish s).futures item.id = some (.exc e) ∧
    (workerFinish s).running = none ∧
    (workerFinish s).processing = s.processing ∧
    (workerFinish s).queue = s.queue ∧
    (∀ next rest, s.queue = next :: rest →
      lookupKey (workerFinish s).futures next.id ≠ some .cancelled →
      (workerDequeue (workerFinish s)).begun = s.begun ++ [next.id]) ∧
    sync_worker_logic (.error e) = [.exc e, .stopAsyncIteration] := by
  have hnc : ¬ lookupKey s.futures item.id = some .cancelled := by
    rw [h3]
    simp
  have hfin : workerFinish s =
      { s with running := none,
               futures := setFuture s.futures item.id (.exc e) } := by
    unfold workerFinish
    rw [h1]
    dsimp only
    rw [if_neg hnc, h2]
  rw [hfin]
  dsimp only
  refine ⟨lookupKey_setFuture_self s.futures item.id (.exc e) .pending h3,
    rfl, rfl, rfl, ?_, rfl⟩
  intro next rest hq hnc2
  unfold workerDequeue
  rw [hq]
  dsimp only
  rw [if_neg hnc2]

/-- Witness for C5: the queue `wc5`, whose worker is executing a task
raising `"boom"` with a second task waiting, resolves the first future
to the exception and returns the worker to idle. -/
theorem claim5_witness :
    lookupKey (workerFinish wc5).futures 0 = some (.exc (.other "boom")) ∧
    (workerFinish wc5).running = none := by
  have h := claim5_task_exception_captured wc5 ⟨0, .error (.other "boom")⟩
    (.other "boom") rfl rfl (by decide)
  exact ⟨h.1, h.2.1⟩

/-- Claim C9: if the future of a work item is cancelled while the item has not
been invoked (in particular, cancelled before the worker dequeues it),
then along every further run of the event loop the task of the item is never
invoked and the future stays cancelled. -/
theorem claim9_cancelled_before_dequeue_not_run (s t : QueueState) (i : Nat)
    (h : Reaches s t) (hc : lookupKey s.futures i = some .cancelled)
    (hb : i ∉ s.begun) :
    i ∉ t.begun ∧ lookupKey t.futures i = some .cancelled := by
  induction h with
  | refl => exact ⟨hb, hc⟩
  | tail hsteps hstep ih =>
    obtain ⟨ih1, ih2⟩ := ih
    exact ⟨qstep_preserves_not_begun _ _ i hstep ih2 ih1,
      qstep_preserves_cancelled _ _ i hstep ih2⟩

/-- Witness for C9: in `wc9` the future of the queued item is already
cancelled; after the dequeue step of the worker the task was never invoked
and the future is still cancelled. -/
theorem claim9_witness :
    0 ∉ (workerDequeue wc9).begun ∧
    lookupKey (workerDequeue wc9).futures 0 = some .cancelled :=
  claim9_cancelled_before_dequeue_not_run wc9 (workerDequeue wc9) 0
    (Relation.ReflTransGen.single (QStep.dequeue wc9)) (by decide) (by decide)

/-- Claim C10: once a future is cancelled it stays cancelled along every
run of the event loop — the single-assignment slot is never overwritten
with a value or an exception — and if the worker is executing an item
whose future is cancelled (cancelled after dequeue), the finish step
re-checks cancellation and discards the outcome of the task: the future table
is left completely unchanged and the worker simply moves on. -/
theorem claim10_cancelled_handle_never_written (s t : QueueState) (i : Nat)
    (h : Reaches s t) (hc : lookupKey s.futures i = some .cancelled) :
    lookupKey t.futures i = some .cancelled ∧
    (∀ item : WorkItem, t.running = some item → item.id = i →
      (workerFinish t).futures = t.futures ∧ (workerFinish t).running = none) := by
  have habs : lookupKey t.futures i = some .cancelled := by
    induction h with
    | refl => exact hc
    | tail hsteps hstep ih => exact qstep_preserves_cancelled _ _ i hstep ih
  refine ⟨habs, ?_⟩
  intro item hrun hid
  unfold workerFinish
  rw [hrun]
  dsimp only
  rw [if_pos (by rw [hid]; exact habs)]
  exact ⟨rfl, rfl⟩

/-- Witness for C10: in `wc10` the worker is executing item 0 whose
future was cancelled after dequeue; the finish step writes nothing. -/
theorem claim10_witness :
    lookupKey (workerFinish wc10).futures 0 = some .cancelled ∧
    (workerFinish wc10).futures = wc10.futures := by
  have h := claim10_cancelled_handle_never_written wc10 wc10 0
    Relation.ReflTransGen.refl (by decide)
  have h2 := h.2 ⟨0, .ok "late"⟩ rfl rfl
  refine ⟨?_, h2.1⟩
  rw [h2.1]
  exact h.1

/-- Witness for C6 at the scenario producer: the channel of the
`"He"`/`"llo"` run carries the end-of-stream sentinel exactly once. -/
theorem claim6_witness :
    (sync_worker_logic heLloProducer).count StreamMsg.stopAsyncIteration = 1 :=
  (claim6_stream_channel_terminators heLloProducer).1
